import Mathlib

/-!
Shallow embedding of `ultranest/ordertest.py`: the `UniformOrderAccumulator`
class (histogram of insertion ranks plus a running Mann-Whitney-Wilcoxon U
statistic) and the standalone `infinite_U_zscore` function.

Modelling conventions:
* the numpy `uint32` histogram is modelled as a `List ℕ` of counts
  (overflow of a single count needs 2^32 observations at one rank and is
  outside the behaviour the spec describes);
* the floating-point running sum `U` is modelled as an exact rational,
  and the z-score queries as exact real numbers (the spec states the
  numerical contract algebraically);
* the two exceptions the Python `add` can raise (`ValueError` for an
  invalid rank, `ZeroDivisionError` for `N == 0`) are modelled by an
  `Except` result that also carries the state left behind by the raise,
  because the capacity growth performed before the division is observable
  on the mutated object.
-/

namespace Ultranest

/-- The two failure modes of `UniformOrderAccumulator.add`:
`invalidRank` models the `ValueError` raised by the explicit rank check,
`zeroDivision` models the `ZeroDivisionError` raised by `(rank + 0.5) / N`
when `N = 0`. -/
inductive AddError
  | invalidRank
  | zeroDivision
deriving DecidableEq, Repr

/-- State of a `UniformOrderAccumulator`: the count array `histogram`
and the running sum `U` of `(rank + 0.5) / N` contributions. -/
structure UniformOrderAccumulator where
  histogram : List ℕ
  U : ℚ
deriving DecidableEq, Repr

/-- `UniformOrderAccumulator(N)`: a zeroed histogram of length `N`
and running sum `0.0`. -/
def UniformOrderAccumulator.init (N : ℕ) : UniformOrderAccumulator :=
  ⟨List.replicate N 0, 0⟩

/-- `reset`: set all counts to zero (`histogram[:] = 0`, keeping the
array length) and the running sum to zero. -/
def UniformOrderAccumulator.reset (acc : UniformOrderAccumulator) :
    UniformOrderAccumulator :=
  ⟨List.replicate acc.histogram.length 0, 0⟩

/-- `expand(N)`: if `N > histogram.size`, replace the histogram by a
zeroed array of length `N` whose low indices hold the old counts. -/
def UniformOrderAccumulator.expand (acc : UniformOrderAccumulator) (N : ℕ) :
    UniformOrderAccumulator :=
  if acc.histogram.length < N then
    ⟨acc.histogram ++ List.replicate (N - acc.histogram.length) 0, acc.U⟩
  else acc

/-- `add(rank, N)`:
1. raise `ValueError` if not `0 <= rank <= N` (state untouched);
2. if `N >= histogram.size`, call `expand(N + 1)`;
3. compute `(rank + 0.5) / N` — raises `ZeroDivisionError` when `N = 0`,
   after the expansion of step 2 but before any count or `U` update;
4. otherwise add it to `U`, increment `histogram[rank]`, and return the
   accumulator. -/
def UniformOrderAccumulator.add (acc : UniformOrderAccumulator) (rank N : ℤ) :
    Except (AddError × UniformOrderAccumulator) UniformOrderAccumulator :=
  if ¬ (0 ≤ rank ∧ rank ≤ N) then .error (.invalidRank, acc)
  else
    let acc1 := if (acc.histogram.length : ℤ) ≤ N then acc.expand (N.toNat + 1) else acc
    if N = 0 then .error (.zeroDivision, acc1)
    else .ok ⟨acc1.histogram.set rank.toNat (acc1.histogram.getD rank.toNat 0 + 1),
              acc1.U + ((rank : ℚ) + 0.5) / (N : ℚ)⟩

/-- `zscore`: with `total = histogram.sum()`, return `0.0` if `total = 0`,
else `(U - total * 0.5) / (total / 12.0) ** 0.5`. -/
noncomputable def UniformOrderAccumulator.zscore (acc : UniformOrderAccumulator) : ℝ :=
  let N : ℕ := acc.histogram.sum
  if N = 0 then 0
  else ((acc.U : ℝ) - (N : ℝ) * 0.5) / Real.sqrt ((N : ℝ) / 12)

/-- `__len__`: the total number of recorded counts, `histogram.sum()`. -/
def UniformOrderAccumulator.length (acc : UniformOrderAccumulator) : ℕ :=
  acc.histogram.sum

/-- The divisor of `infinite_U_zscore`: `(N / 12.0) ** 0.5 * B` where
`N = len(sample)`. -/
noncomputable def infinite_U_denominator (sample : List ℚ) (B : ℚ) : ℝ :=
  Real.sqrt ((sample.length : ℝ) / 12) * (B : ℝ)

/-- `infinite_U_zscore(sample, B)`:
`((sample + 0.5).sum() - N * B * 0.5) / ((N / 12.0) ** 0.5 * B)`
with `N = len(sample)`. -/
noncomputable def infinite_U_zscore (sample : List ℚ) (B : ℚ) : ℝ :=
  ((sample.map (fun x : ℚ => (x : ℝ) + 0.5)).sum
      - (sample.length : ℝ) * (B : ℝ) * 0.5)
    / infinite_U_denominator sample B

/-- The state left behind by `add(rank, N)` whether it returns normally or
raises: Python exceptions propagate, but the mutations already performed on
`self` (capacity growth before a `ZeroDivisionError`) persist. -/
def UniformOrderAccumulator.addState (acc : UniformOrderAccumulator) (rank N : ℤ) :
    UniformOrderAccumulator :=
  match acc.add rank N with
  | .ok a => a
  | .error (_, a) => a

/-- Replaying a sequence of `(rank, N)` observations through `add`. -/
def UniformOrderAccumulator.replay (acc : UniformOrderAccumulator) :
    List (ℤ × ℤ) → UniformOrderAccumulator
  | [] => acc
  | p :: rest => (acc.addState p.1 p.2).replay rest

/-- A `(rank, N)` observation satisfying the caller contract:
`0 ≤ rank ≤ N` and `N ≥ 1`. -/
def ValidPair (p : ℤ × ℤ) : Prop :=
  0 ≤ p.1 ∧ p.1 ≤ p.2 ∧ 1 ≤ p.2

instance : DecidablePred ValidPair := fun p =>
  inferInstanceAs (Decidable (0 ≤ p.1 ∧ p.1 ≤ p.2 ∧ 1 ≤ p.2))

/-- The histogram produced by growing `h` to at least `m` slots:
the old counts followed by zero padding. -/
def padded (h : List ℕ) (m : ℕ) : List ℕ :=
  h ++ List.replicate (m - h.length) 0

lemma padded_length (h : List ℕ) (m : ℕ) : (padded h m).length = max h.length m := by
  simp only [padded, List.length_append, List.length_replicate]
  omega

lemma getD_replicate_zero (k j : ℕ) : (List.replicate k (0 : ℕ)).getD j 0 = 0 := by
  rcases lt_or_le j k with hj | hj
  · rw [List.getD_eq_getElem _ _ (by simpa using hj)]
    simp
  · exact List.getD_eq_default _ _ (by simpa using hj)

lemma padded_getD (h : List ℕ) (m i : ℕ) : (padded h m).getD i 0 = h.getD i 0 := by
  rcases lt_or_le i h.length with hi | hi
  · exact List.getD_append _ _ _ _ hi
  · rw [padded, List.getD_append_right _ _ _ _ hi, List.getD_eq_default _ _ hi,
      getD_replicate_zero]

lemma padded_sum (h : List ℕ) (m : ℕ) : (padded h m).sum = h.sum := by
  simp [padded]

lemma padded_of_le (h : List ℕ) {m : ℕ} (hm : m ≤ h.length) : padded h m = h := by
  simp [padded, Nat.sub_eq_zero_of_le hm]

/-- `expand` always produces the zero-padded histogram (when the requested
size is not larger, the padding is empty). -/
lemma UniformOrderAccumulator.expand_eq (acc : UniformOrderAccumulator) (m : ℕ) :
    acc.expand m = ⟨padded acc.histogram m, acc.U⟩ := by
  unfold expand
  split
  · rfl
  · cases acc with
    | mk h u => simp_all [padded_of_le, not_lt.mp]

lemma getD_set_getD (h : List ℕ) (i j : ℕ) (hi : i < h.length) :
    (h.set i (h.getD i 0 + 1)).getD j 0 = h.getD j 0 + (if j = i then 1 else 0) := by
  by_cases hji : j = i
  · subst hji
    rw [List.getD_eq_getElem _ _ (by simpa using hi), List.getElem_set_self, if_pos rfl]
  · rcases lt_or_le j h.length with hj | hj
    · rw [if_neg hji, Nat.add_zero, List.getD_eq_getElem _ _ (by simpa using hj),
        List.getD_eq_getElem _ _ hj]
      exact List.getElem_set_ne (fun hh => hji hh.symm) _
    · rw [List.getD_eq_default _ _ (by simpa using hj), List.getD_eq_default _ _ hj,
        if_neg hji]

lemma sum_set_getD (h : List ℕ) (i : ℕ) (hi : i < h.length) :
    (h.set i (h.getD i 0 + 1)).sum = h.sum + 1 := by
  induction h generalizing i with
  | nil => simp at hi
  | cons a t ih =>
    cases i with
    | zero => simp [List.getD_cons_zero]; omega
    | succ n =>
      have hn : n < t.length := by simpa using hi
      rw [List.getD_cons_succ, List.set_cons_succ, List.sum_cons, List.sum_cons, ih n hn]
      omega

/-- Explicit form of a successful `add`: the histogram is zero-padded to
`N + 1` slots, the count at index `rank` is incremented, and
`(rank + 0.5) / N` is added to the running sum. -/
lemma UniformOrderAccumulator.add_eq_ok (acc : UniformOrderAccumulator) {r N : ℤ}
    (h0 : 0 ≤ r) (h1 : r ≤ N) (h2 : 1 ≤ N) :
    acc.add r N = .ok
      ⟨(padded acc.histogram (N.toNat + 1)).set r.toNat
          ((padded acc.histogram (N.toNat + 1)).getD r.toNat 0 + 1),
        acc.U + ((r : ℚ) + 0.5) / (N : ℚ)⟩ := by
  unfold add
  rw [if_neg (not_not_intro ⟨h0, h1⟩)]
  have hN0 : ¬ N = 0 := by omega
  by_cases hc : (acc.histogram.length : ℤ) ≤ N
  · simp only [if_pos hc, expand_eq, if_neg hN0]
  · have hlen : N.toNat + 1 ≤ acc.histogram.length := by omega
    simp only [if_neg hc, if_neg hN0, padded_of_le _ hlen]

lemma UniformOrderAccumulator.addState_eq (acc : UniformOrderAccumulator) {r N : ℤ}
    (h0 : 0 ≤ r) (h1 : r ≤ N) (h2 : 1 ≤ N) :
    acc.addState r N =
      ⟨(padded acc.histogram (N.toNat + 1)).set r.toNat
          ((padded acc.histogram (N.toNat + 1)).getD r.toNat 0 + 1),
        acc.U + ((r : ℚ) + 0.5) / (N : ℚ)⟩ := by
  unfold addState
  rw [add_eq_ok acc h0 h1 h2]

lemma UniformOrderAccumulator.toNat_lt_padded_length (acc : UniformOrderAccumulator)
    {r N : ℤ} (h1 : r ≤ N) :
    r.toNat < (padded acc.histogram (N.toNat + 1)).length := by
  rw [padded_length]
  have := Int.toNat_le_toNat h1
  omega

lemma UniformOrderAccumulator.U_addState (acc : UniformOrderAccumulator) {r N : ℤ}
    (h0 : 0 ≤ r) (h1 : r ≤ N) (h2 : 1 ≤ N) :
    (acc.addState r N).U = acc.U + ((r : ℚ) + 0.5) / (N : ℚ) := by
  rw [addState_eq acc h0 h1 h2]

lemma UniformOrderAccumulator.getD_addState (acc : UniformOrderAccumulator) {r N : ℤ}
    (h0 : 0 ≤ r) (h1 : r ≤ N) (h2 : 1 ≤ N) (i : ℕ) :
    (acc.addState r N).histogram.getD i 0
      = acc.histogram.getD i 0 + (if i = r.toNat then 1 else 0) := by
  rw [addState_eq acc h0 h1 h2]
  show ((padded acc.histogram (N.toNat + 1)).set r.toNat _).getD i 0 = _
  rw [getD_set_getD _ _ _ (acc.toNat_lt_padded_length h1), padded_getD]

lemma UniformOrderAccumulator.sum_addState (acc : UniformOrderAccumulator) {r N : ℤ}
    (h0 : 0 ≤ r) (h1 : r ≤ N) (h2 : 1 ≤ N) :
    (acc.addState r N).histogram.sum = acc.histogram.sum + 1 := by
  rw [addState_eq acc h0 h1 h2]
  show ((padded acc.histogram (N.toNat + 1)).set r.toNat _).sum = _
  rw [sum_set_getD _ _ (acc.toNat_lt_padded_length h1), padded_sum]

lemma UniformOrderAccumulator.length_addState (acc : UniformOrderAccumulator) {r N : ℤ}
    (h0 : 0 ≤ r) (h1 : r ≤ N) (h2 : 1 ≤ N) :
    (acc.addState r N).histogram.length = max acc.histogram.length (N.toNat + 1) := by
  rw [addState_eq acc h0 h1 h2]
  show ((padded acc.histogram (N.toNat + 1)).set r.toNat _).length = _
  rw [List.length_set, padded_length]

lemma UniformOrderAccumulator.addState_of_invalid (acc : UniformOrderAccumulator)
    {r N : ℤ} (h : ¬ (0 ≤ r ∧ r ≤ N)) : acc.addState r N = acc := by
  unfold addState add
  rw [if_pos h]

lemma UniformOrderAccumulator.addState_of_zeroDiv (acc : UniformOrderAccumulator)
    {r : ℤ} (h : 0 ≤ r ∧ r ≤ 0) :
    acc.addState r 0 = if (acc.histogram.length : ℤ) ≤ 0 then acc.expand 1 else acc := by
  unfold addState add
  rw [if_neg (not_not_intro h)]
  simp

lemma UniformOrderAccumulator.length_addState_mono (acc : UniformOrderAccumulator)
    (r N : ℤ) : acc.histogram.length ≤ (acc.addState r N).histogram.length := by
  by_cases hvalid : 0 ≤ r ∧ r ≤ N
  · by_cases hz : N = 0
    · subst hz
      rw [acc.addState_of_zeroDiv hvalid]
      split
      · rw [expand_eq, padded_length]
        omega
      · exact le_refl _
    · have h2 : 1 ≤ N := by
        rcases hvalid with ⟨h0, h1⟩
        omega
      rw [acc.length_addState hvalid.1 hvalid.2 h2]
      omega
  · rw [acc.addState_of_invalid hvalid]

lemma UniformOrderAccumulator.replay_U (l : List (ℤ × ℤ)) (hv : ∀ p ∈ l, ValidPair p)
    (acc : UniformOrderAccumulator) :
    (acc.replay l).U = acc.U + (l.map (fun p => ((p.1 : ℚ) + 0.5) / (p.2 : ℚ))).sum := by
  induction l generalizing acc with
  | nil => simp [replay]
  | cons p rest ih =>
    have hp := hv p (List.mem_cons_self _ _)
    simp only [replay]
    rw [ih (fun q hq => hv q (List.mem_cons_of_mem _ hq)) _,
      acc.U_addState hp.1 hp.2.1 hp.2.2, List.map_cons, List.sum_cons]
    ring

lemma UniformOrderAccumulator.replay_sum (l : List (ℤ × ℤ)) (hv : ∀ p ∈ l, ValidPair p)
    (acc : UniformOrderAccumulator) :
    (acc.replay l).histogram.sum = acc.histogram.sum + l.length := by
  induction l generalizing acc with
  | nil => simp [replay]
  | cons p rest ih =>
    have hp := hv p (List.mem_cons_self _ _)
    simp only [replay]
    rw [ih (fun q hq => hv q (List.mem_cons_of_mem _ hq)) _,
      acc.sum_addState hp.1 hp.2.1 hp.2.2, List.length_cons]
    omega

lemma UniformOrderAccumulator.replay_getD (l : List (ℤ × ℤ)) (hv : ∀ p ∈ l, ValidPair p)
    (acc : UniformOrderAccumulator) (i : ℕ) :
    (acc.replay l).histogram.getD i 0
      = acc.histogram.getD i 0 + l.countP (fun p => decide (p.1.toNat = i)) := by
  induction l generalizing acc with
  | nil => simp [replay]
  | cons p rest ih =>
    have hp := hv p (List.mem_cons_self _ _)
    simp only [replay]
    rw [ih (fun q hq => hv q (List.mem_cons_of_mem _ hq)) _,
      acc.getD_addState hp.1 hp.2.1 hp.2.2 i, List.countP_cons]
    by_cases hi : p.1.toNat = i
    · simp [hi]
      omega
    · have hi2 : ¬ i = p.1.toNat := fun hh => hi hh.symm
      simp [hi, hi2]

lemma UniformOrderAccumulator.zscore_congr (a b : UniformOrderAccumulator)
    (hU : a.U = b.U) (hs : a.histogram.sum = b.histogram.sum) : a.zscore = b.zscore := by
  unfold zscore
  rw [hU, hs]

open UniformOrderAccumulator in
example : addState (init 0) 9 10 =
    ⟨[0, 0, 0, 0, 0, 0, 0, 0, 0, 1, 0], 19/20⟩ := by
  norm_num [addState, add, expand, init]
  decide

open UniformOrderAccumulator in
example : add (init 2) 3 2 = .error (.invalidRank, init 2) := rfl

open UniformOrderAccumulator in
example : add (init 0) 0 0 = .error (.zeroDivision, ⟨[0], 0⟩) := rfl

/-- C1: for every accumulator state, `zscore` returns exactly `0.0` when
`total = sum(counts)` is `0`, and otherwise returns
`(runningSum - total * 0.5) / sqrt(total / 12.0)`; it is a pure function of
the current state (a total Lean function of the state record). -/
theorem claim_C1_zscore_formula (acc : UniformOrderAccumulator) :
    (acc.histogram.sum = 0 → acc.zscore = 0) ∧
    (acc.histogram.sum ≠ 0 →
      acc.zscore = ((acc.U : ℝ) - (acc.histogram.sum : ℝ) * 0.5)
        / Real.sqrt ((acc.histogram.sum : ℝ) / 12)) := by
  constructor
  · intro h
    simp [UniformOrderAccumulator.zscore, h]
  · intro h
    simp [UniformOrderAccumulator.zscore, h]

theorem claim_C1_zscore_formula_witness :
    (UniformOrderAccumulator.mk [2, 0] (3/4)).zscore
      = (((3/4 : ℚ) : ℝ) - (([2, 0] : List ℕ).sum : ℝ) * 0.5)
        / Real.sqrt ((([2, 0] : List ℕ).sum : ℝ) / 12) :=
  (claim_C1_zscore_formula ⟨[2, 0], 3/4⟩).2 (by decide)

/-- C2: for every integer `rank` and positive integer `N`, `add(rank, N)`
fails with the `InvalidRank` error iff `rank < 0` or `rank > N`; on such a
failure the returned state is exactly the unmutated input state, and the
only possible failure for `N ≥ 1` is `InvalidRank`; in-range ranks always
succeed. -/
theorem claim_C2_add_invalid_rank (acc : UniformOrderAccumulator) (rank N : ℤ)
    (hN : 1 ≤ N) :
    (acc.add rank N = .error (.invalidRank, acc) ↔ (rank < 0 ∨ N < rank)) ∧
    (0 ≤ rank → rank ≤ N → ∃ a, acc.add rank N = .ok a) ∧
    (∀ e a, acc.add rank N = .error (e, a) → e = .invalidRank ∧ a = acc) := by
  refine ⟨⟨?_, ?_⟩, ?_, ?_⟩
  · intro h
    by_contra hcon
    push_neg at hcon
    rw [acc.add_eq_ok hcon.1 hcon.2 hN] at h
    exact Except.noConfusion h
  · intro h
    have hvalid : ¬ (0 ≤ rank ∧ rank ≤ N) := by omega
    unfold UniformOrderAccumulator.add
    rw [if_pos hvalid]
  · intro h0 h1
    exact ⟨_, acc.add_eq_ok h0 h1 hN⟩
  · intro e a h
    by_cases hvalid : 0 ≤ rank ∧ rank ≤ N
    · rw [acc.add_eq_ok hvalid.1 hvalid.2 hN] at h
      exact Except.noConfusion h
    · unfold UniformOrderAccumulator.add at h
      rw [if_pos hvalid] at h
      have h2 := Except.error.inj h
      exact ⟨congrArg Prod.fst h2 |>.symm, congrArg Prod.snd h2 |>.symm⟩

theorem claim_C2_add_invalid_rank_witness :
    ((UniformOrderAccumulator.init 1).add 2 1
        = .error (.invalidRank, UniformOrderAccumulator.init 1)) ∧
    (∃ a, (UniformOrderAccumulator.init 1).add 1 1 = .ok a) :=
  ⟨(claim_C2_add_invalid_rank (UniformOrderAccumulator.init 1) 2 1 (by decide)).1.mpr
      (Or.inr (by decide)),
   (claim_C2_add_invalid_rank (UniformOrderAccumulator.init 1) 1 1 (by decide)).2.1
      (by decide) (by decide)⟩

/-- C6: `reset` zeroes every count and the running sum, never fails, keeps
the capacity, and afterwards the state is exactly a freshly constructed
accumulator of the same capacity, so `zscore` returns `0.0` and the length
query returns `0`. -/
theorem claim_C6_reset_fresh (acc : UniformOrderAccumulator) :
    acc.reset = UniformOrderAccumulator.init acc.histogram.length ∧
    acc.reset.histogram.length = acc.histogram.length ∧
    acc.reset.zscore = 0 ∧
    acc.reset.length = 0 ∧
    (∀ i, acc.reset.histogram.getD i 0 = 0) ∧
    acc.reset.U = 0 := by
  refine ⟨rfl, by simp [UniformOrderAccumulator.reset], ?_, ?_, ?_, rfl⟩
  · simp [UniformOrderAccumulator.zscore, UniformOrderAccumulator.reset]
  · simp [UniformOrderAccumulator.length, UniformOrderAccumulator.reset]
  · intro i
    exact getD_replicate_zero _ _

/-- C10: `add(rank=0, N=0)` passes the rank-validity check (no
`InvalidRank`), then fails with the division-by-zero error from
`(rank + 0.5) / N`; if the capacity was `0` it has already been grown to
`1` before this failure, while the counts and the running sum are left
unchanged. -/
theorem claim_C10_add_zero_zero (acc : UniformOrderAccumulator) :
    ∃ acc1, acc.add 0 0 = .error (.zeroDivision, acc1) ∧
      acc1.U = acc.U ∧
      (∀ i, acc1.histogram.getD i 0 = acc.histogram.getD i 0) ∧
      acc1.histogram.sum = acc.histogram.sum ∧
      (acc.histogram.length = 0 → acc1.histogram.length = 1) ∧
      acc.histogram.length ≤ acc1.histogram.length := by
  refine ⟨if (acc.histogram.length : ℤ) ≤ 0 then acc.expand 1 else acc, ?_, ?_, ?_, ?_, ?_, ?_⟩
  · unfold UniformOrderAccumulator.add
    rw [if_neg (not_not_intro ⟨le_refl 0, le_refl 0⟩)]
    norm_num
  · split
    · rw [UniformOrderAccumulator.expand_eq]
    · rfl
  · intro i
    split
    · rw [UniformOrderAccumulator.expand_eq]
      exact padded_getD _ _ _
    · rfl
  · split
    · rw [UniformOrderAccumulator.expand_eq]
      exact padded_sum _ _
    · rfl
  · intro h0
    rw [if_pos (by exact_mod_cast Nat.le_of_eq h0), UniformOrderAccumulator.expand_eq]
    show (padded acc.histogram 1).length = 1
    rw [padded_length, h0]
    omega
  · split
    · rw [UniformOrderAccumulator.expand_eq]
      show _ ≤ (padded acc.histogram 1).length
      rw [padded_length]
      omega
    · exact le_refl _

theorem claim_C10_add_zero_zero_witness :
    ∃ acc1, (UniformOrderAccumulator.init 0).add 0 0 = .error (.zeroDivision, acc1) ∧
      acc1.U = (UniformOrderAccumulator.init 0).U ∧
      (∀ i, acc1.histogram.getD i 0 = (UniformOrderAccumulator.init 0).histogram.getD i 0) ∧
      acc1.histogram.sum = (UniformOrderAccumulator.init 0).histogram.sum ∧
      ((UniformOrderAccumulator.init 0).histogram.length = 0 → acc1.histogram.length = 1) ∧
      (UniformOrderAccumulator.init 0).histogram.length ≤ acc1.histogram.length :=
  claim_C10_add_zero_zero (UniformOrderAccumulator.init 0)

/-- C3: replaying any valid sequence of `(rank, N)` pairs (with
`0 ≤ rank ≤ N` and `N ≥ 1`) through `add` after a reset makes the length
query return `sum(counts)`, which equals the number of add calls — and
every one of those calls succeeds from any state, so this is the number of
successful calls. -/
theorem claim_C3_length_counts_adds (l : List (ℤ × ℤ)) (hv : ∀ p ∈ l, ValidPair p)
    (acc : UniformOrderAccumulator) :
    (acc.reset.replay l).length = l.length ∧
    (acc.reset.replay l).length = (acc.reset.replay l).histogram.sum ∧
    (∀ (b : UniformOrderAccumulator) (p : ℤ × ℤ), ValidPair p →
      ∃ a, b.add p.1 p.2 = .ok a) := by
  refine ⟨?_, rfl, ?_⟩
  · rw [UniformOrderAccumulator.length, UniformOrderAccumulator.replay_sum l hv _]
    simp [UniformOrderAccumulator.reset]
  · intro b p hp
    exact ⟨_, b.add_eq_ok hp.1 hp.2.1 hp.2.2⟩

theorem claim_C3_length_counts_adds_witness :
    ((UniformOrderAccumulator.init 0).reset.replay [(0, 1), (1, 2), (2, 2)]).length = 3 :=
  (claim_C3_length_counts_adds [(0, 1), (1, 2), (2, 2)] (by decide)
    (UniformOrderAccumulator.init 0)).1

/-- C7: a successful `add(rank, N)` leaves the capacity at
`max(old capacity, N + 1)` — in particular at least `N + 1`, so index
`rank ≤ N` is addressable, and never smaller than before — and preserves
every previously recorded count at an index other than `rank`; moreover
`add` never shrinks the capacity on any input (also on its failure paths)
and `reset` keeps the capacity. -/
theorem claim_C7_capacity_growth (acc : UniformOrderAccumulator) (r N : ℤ)
    (h0 : 0 ≤ r) (h1 : r ≤ N) (h2 : 1 ≤ N) :
    acc.add r N = .ok (acc.addState r N) ∧
    (acc.addState r N).histogram.length = max acc.histogram.length (N.toNat + 1) ∧
    N.toNat + 1 ≤ (acc.addState r N).histogram.length ∧
    acc.histogram.length ≤ (acc.addState r N).histogram.length ∧
    (∀ i, i ≠ r.toNat →
      (acc.addState r N).histogram.getD i 0 = acc.histogram.getD i 0) ∧
    (∀ rank scale : ℤ,
      acc.histogram.length ≤ (acc.addState rank scale).histogram.length) ∧
    acc.reset.histogram.length = acc.histogram.length := by
  refine ⟨?_, acc.length_addState h0 h1 h2, ?_, ?_, ?_, acc.length_addState_mono, ?_⟩
  · rw [acc.add_eq_ok h0 h1 h2, acc.addState_eq h0 h1 h2]
  · rw [acc.length_addState h0 h1 h2]
    omega
  · rw [acc.length_addState h0 h1 h2]
    omega
  · intro i hi
    rw [acc.getD_addState h0 h1 h2 i, if_neg hi, Nat.add_zero]
  · simp [UniformOrderAccumulator.reset]

theorem claim_C7_capacity_growth_witness :
    ((UniformOrderAccumulator.init 2).addState 1 5).histogram.length
        = max (UniformOrderAccumulator.init 2).histogram.length ((5 : ℤ).toNat + 1) ∧
    (5 : ℤ).toNat + 1 ≤ ((UniformOrderAccumulator.init 2).addState 1 5).histogram.length ∧
    (∀ i, i ≠ (1 : ℤ).toNat →
      ((UniformOrderAccumulator.init 2).addState 1 5).histogram.getD i 0
        = (UniformOrderAccumulator.init 2).histogram.getD i 0) := by
  have h := claim_C7_capacity_growth (UniformOrderAccumulator.init 2) 1 5
    (by decide) (by decide) (by decide)
  exact ⟨h.2.1, h.2.2.1, h.2.2.2.2.1⟩

/-- C5: feeding the same multiset of valid `(rank, N)` pairs to `add` in
any order yields the same final `zscore`, the same running sum, the same
total count and the same count at every rank index. -/
theorem claim_C5_order_invariance (l₁ l₂ : List (ℤ × ℤ)) (hp : l₁.Perm l₂)
    (hv : ∀ p ∈ l₁, ValidPair p) (acc : UniformOrderAccumulator) :
    (acc.replay l₁).zscore = (acc.replay l₂).zscore ∧
    (acc.replay l₁).U = (acc.replay l₂).U ∧
    (acc.replay l₁).histogram.sum = (acc.replay l₂).histogram.sum ∧
    (∀ i, (acc.replay l₁).histogram.getD i 0 = (acc.replay l₂).histogram.getD i 0) := by
  have hv₂ : ∀ p ∈ l₂, ValidPair p := fun p hmem => hv p (hp.mem_iff.mpr hmem)
  have hU : (acc.replay l₁).U = (acc.replay l₂).U := by
    rw [UniformOrderAccumulator.replay_U l₁ hv acc,
      UniformOrderAccumulator.replay_U l₂ hv₂ acc,
      (hp.map (fun p => ((p.1 : ℚ) + 0.5) / (p.2 : ℚ))).sum_eq]
  have hsum : (acc.replay l₁).histogram.sum = (acc.replay l₂).histogram.sum := by
    rw [UniformOrderAccumulator.replay_sum l₁ hv acc,
      UniformOrderAccumulator.replay_sum l₂ hv₂ acc, hp.length_eq]
  refine ⟨UniformOrderAccumulator.zscore_congr _ _ hU hsum, hU, hsum, ?_⟩
  intro i
  rw [UniformOrderAccumulator.replay_getD l₁ hv acc i,
    UniformOrderAccumulator.replay_getD l₂ hv₂ acc i,
    hp.countP_eq (fun p => decide (p.1.toNat = i))]

theorem claim_C5_order_invariance_witness :
    ((UniformOrderAccumulator.init 0).replay [(0, 2), (1, 2)]).U
      = ((UniformOrderAccumulator.init 0).replay [(1, 2), (0, 2)]).U :=
  (claim_C5_order_invariance [(0, 2), (1, 2)] [(1, 2), (0, 2)] (by decide) (by decide)
    (UniformOrderAccumulator.init 0)).2.1

/-- C9: starting from an empty accumulator, after `add(9, 10)` ten times the
`zscore` is strictly greater than `3` (its exact value is
`(9.5 - 5) / sqrt(10/12)`). -/
theorem claim_C9_skewed_zscore_positive :
    ((UniformOrderAccumulator.init 0).replay (List.replicate 10 (9, 10))).zscore
        = ((9.5 : ℝ) - 5) / Real.sqrt (10 / 12) ∧
    3 < ((UniformOrderAccumulator.init 0).replay (List.replicate 10 (9, 10))).zscore := by
  have hv : ∀ p ∈ List.replicate 10 ((9 : ℤ), (10 : ℤ)), ValidPair p := by decide
  have hsum :
      ((UniformOrderAccumulator.init 0).replay
        (List.replicate 10 ((9 : ℤ), (10 : ℤ)))).histogram.sum = 10 := by
    rw [UniformOrderAccumulator.replay_sum _ hv _]
    simp [UniformOrderAccumulator.init]
  have hU :
      ((UniformOrderAccumulator.init 0).replay
        (List.replicate 10 ((9 : ℤ), (10 : ℤ)))).U = 19 / 2 := by
    rw [UniformOrderAccumulator.replay_U _ hv _]
    simp [UniformOrderAccumulator.init, List.map_replicate]
    norm_num
  have hz :
      ((UniformOrderAccumulator.init 0).replay
          (List.replicate 10 ((9 : ℤ), (10 : ℤ)))).zscore
        = ((19 / 2 : ℝ) - 10 * 0.5) / Real.sqrt (10 / 12) := by
    simp only [UniformOrderAccumulator.zscore, hsum, hU]
    norm_num
  refine ⟨by rw [hz]; norm_num, ?_⟩
  rw [hz]
  have hs : (0 : ℝ) < Real.sqrt (10 / 12) := Real.sqrt_pos.mpr (by norm_num)
  rw [lt_div_iff₀ hs]
  have h2 : Real.sqrt (10 / 12) ^ 2 = (10 : ℝ) / 12 := Real.sq_sqrt (by norm_num)
  nlinarith [h2, Real.sqrt_nonneg ((10 : ℝ) / 12),
    sq_nonneg (Real.sqrt ((10 : ℝ) / 12) - 1)]

/-- C8 counterexample: on the empty sample the divisor used by
`infinite_U_zscore` is exactly `0`, so a division by zero is reached there
(the claim asserts no reachable division by zero, naming the empty sequence
in particular). -/
theorem claim_C8_counterexample : infinite_U_denominator ([] : List ℚ) 1 = 0 := by
  simp [infinite_U_denominator]

/-- C8 (amended): every operation other than `add` is total (all are Lean
functions); `zscore` reaches no division by zero — the empty accumulator
returns `0.0` and otherwise its square-root divisor is nonzero — while
`infinite_U_zscore` reaches a division by zero exactly on degenerate input:
for a nonempty sample and a nonzero `B` its divisor is nonzero. -/
theorem claim_C8_amended_no_div_by_zero :
    (∀ acc : UniformOrderAccumulator, acc.histogram.sum = 0 → acc.zscore = 0) ∧
    (∀ acc : UniformOrderAccumulator, acc.histogram.sum ≠ 0 →
      Real.sqrt ((acc.histogram.sum : ℝ) / 12) ≠ 0) ∧
    (∀ (s : List ℚ) (B : ℚ), s ≠ [] → B ≠ 0 → infinite_U_denominator s B ≠ 0) := by
  refine ⟨?_, ?_, ?_⟩
  · intro acc h
    simp [UniformOrderAccumulator.zscore, h]
  · intro acc h
    refine ne_of_gt (Real.sqrt_pos.mpr (div_pos ?_ (by norm_num)))
    exact_mod_cast Nat.pos_of_ne_zero h
  · intro s B hs hB
    unfold infinite_U_denominator
    apply mul_ne_zero
    · refine ne_of_gt (Real.sqrt_pos.mpr (div_pos ?_ (by norm_num)))
      exact_mod_cast List.length_pos.mpr hs
    · exact_mod_cast hB

theorem claim_C8_amended_no_div_by_zero_witness :
    (UniformOrderAccumulator.init 3).zscore = 0 ∧
    infinite_U_denominator [0] 1 ≠ 0 :=
  ⟨claim_C8_amended_no_div_by_zero.1 (UniformOrderAccumulator.init 3) (by decide),
   claim_C8_amended_no_div_by_zero.2.2 [0] 1 (by simp) (by norm_num)⟩

lemma sum_map_div (l : List ℚ) (b : ℚ) : (l.map (fun x => x / b)).sum = l.sum / b := by
  induction l with
  | nil => simp
  | cons a t ih => simp [ih, add_div]

lemma ratCast_list_sum (l : List ℚ) :
    ((l.sum : ℚ) : ℝ) = (l.map (fun q : ℚ => (q : ℝ))).sum := by
  induction l with
  | nil => simp
  | cons a t ih =>
    rw [List.sum_cons, List.map_cons, List.sum_cons, Rat.cast_add, ih]

lemma UniformOrderAccumulator.zscore_of_sum_ne (acc : UniformOrderAccumulator)
    (h : acc.histogram.sum ≠ 0) :
    acc.zscore = ((acc.U : ℝ) - (acc.histogram.sum : ℝ) * 0.5)
      / Real.sqrt ((acc.histogram.sum : ℝ) / 12) := by
  simp [zscore, h]

/-- C4: for every nonempty sequence of valid observations sharing one
constant scale `N = B ≥ 1`, the fixed-scale batch `infinite_U_zscore` of
the rank sequence equals — exactly, in real arithmetic — the `zscore` of a
fresh accumulator (of any initial capacity) fed the same observations
incrementally through `add`. -/
theorem claim_C4_batch_matches_incremental (l : List ℤ) (B : ℤ) (hB : 1 ≤ B)
    (hne : l ≠ []) (hv : ∀ r ∈ l, 0 ≤ r ∧ r ≤ B) (c : ℕ) :
    infinite_U_zscore (l.map (fun r : ℤ => (r : ℚ))) (B : ℚ)
      = ((UniformOrderAccumulator.init c).replay
          (l.map (fun r : ℤ => (r, B)))).zscore := by
  have hv' : ∀ p ∈ l.map (fun r : ℤ => (r, B)), ValidPair p := by
    intro p hp
    rcases List.mem_map.mp hp with ⟨r, hr, rfl⟩
    exact ⟨(hv r hr).1, (hv r hr).2, hB⟩
  have hn : l.length ≠ 0 := fun h => hne (List.length_eq_zero.mp h)
  have hsum :
      ((UniformOrderAccumulator.init c).replay
        (l.map (fun r : ℤ => (r, B)))).histogram.sum = l.length := by
    rw [UniformOrderAccumulator.replay_sum _ hv' _]
    simp [UniformOrderAccumulator.init]
  have hU :
      ((UniformOrderAccumulator.init c).replay (l.map (fun r : ℤ => (r, B)))).U
        = (l.map (fun r : ℤ => ((r : ℚ) + 0.5))).sum / (B : ℚ) := by
    rw [UniformOrderAccumulator.replay_U _ hv' _, ← sum_map_div, List.map_map,
      List.map_map]
    have hfun : ((fun p : ℤ × ℤ => ((p.1 : ℚ) + 0.5) / (p.2 : ℚ))
          ∘ (fun r : ℤ => (r, B)))
        = ((fun x : ℚ => x / (B : ℚ)) ∘ (fun r : ℤ => ((r : ℚ) + 0.5))) := rfl
    rw [hfun]
    simp [UniformOrderAccumulator.init]
  have hz :
      ((UniformOrderAccumulator.init c).replay
          (l.map (fun r : ℤ => (r, B)))).zscore
        = ((((l.map (fun r : ℤ => ((r : ℚ) + 0.5))).sum / (B : ℚ) : ℚ) : ℝ)
            - (l.length : ℝ) * 0.5) / Real.sqrt ((l.length : ℝ) / 12) := by
    rw [UniformOrderAccumulator.zscore_of_sum_ne _ (by rw [hsum]; exact hn), hU, hsum]
  rw [hz]
  unfold infinite_U_zscore infinite_U_denominator
  rw [List.length_map]
  have hnum : ((l.map (fun r : ℤ => (r : ℚ))).map (fun x : ℚ => (x : ℝ) + 0.5)).sum
      = (((l.map (fun r : ℤ => ((r : ℚ) + 0.5))).sum : ℚ) : ℝ) := by
    rw [ratCast_list_sum, List.map_map, List.map_map]
    have hfun2 : ((fun x : ℚ => (x : ℝ) + 0.5) ∘ (fun r : ℤ => (r : ℚ)))
        = ((fun q : ℚ => (q : ℝ)) ∘ (fun r : ℤ => ((r : ℚ) + 0.5))) := by
      funext r
      show ((r : ℚ) : ℝ) + 0.5 = (((r : ℚ) + 0.5 : ℚ) : ℝ)
      push_cast
      norm_num
    rw [hfun2]
  rw [hnum, Rat.cast_div]
  have hBR : ((B : ℚ) : ℝ) ≠ 0 := by
    have hB0 : B ≠ 0 := by omega
    exact_mod_cast hB0
  have hsR : Real.sqrt ((l.length : ℝ) / 12) ≠ 0 := by
    refine ne_of_gt (Real.sqrt_pos.mpr (div_pos ?_ (by norm_num)))
    exact_mod_cast Nat.pos_of_ne_zero hn
  field_simp
  ring

theorem claim_C4_batch_matches_incremental_witness :
    infinite_U_zscore (([0, 1, 2] : List ℤ).map (fun r : ℤ => (r : ℚ))) ((2 : ℤ) : ℚ)
      = ((UniformOrderAccumulator.init 0).replay
          (([0, 1, 2] : List ℤ).map (fun r : ℤ => (r, (2 : ℤ))))).zscore :=
  claim_C4_batch_matches_incremental [0, 1, 2] 2 (by decide) (by simp) (by decide) 0

end Ultranest
